import Mathlib

/-!
Verification of the pdf-creator repository against its specification.

The repository has two parts: a TypeScript web frontend (Next.js pages,
drop zones, API routes, shared types) and a Python core engine
(ColorExtractor, ThemeBuilder, LayoutEngine, FieldWidgetMapper,
DocumentWriter).  The TypeScript files are embedded directly from the
source; the Python core is not part of the provided sources, so the
definitions for it are modelled from the specification text (each such
definition says so in its doc comment).
-/

namespace PdfCreator

/-! ## Colors and the ThemeBuilder blend step -/

/-- An RGB color; channels are natural numbers, valid when each is at
most 255 (spec section 3: channels 0-255). -/
structure Color where
  r : Nat
  g : Nat
  b : Nat
deriving Repr, DecidableEq

/-- Validity of a color: every channel lies in [0,255]. -/
def Color.valid (c : Color) : Prop :=
  c.r ≤ 255 ∧ c.g ≤ 255 ∧ c.b ≤ 255

instance (c : Color) : Decidable c.valid := by
  unfold Color.valid
  infer_instance

/-- Modelled from the spec: the ThemeBuilder blend step for one channel.
Section 4.2: a fixed 65/35 weighted average favouring the suggestion,
clamped to [0,255] after blending.  The Python module branding.py that
implements it is not in the provided sources. -/
def blendChannel (base sugg : Nat) : Nat :=
  min 255 ((65 * sugg + 35 * base) / 100)

/-- Modelled from the spec: the ThemeBuilder blend step on whole colors
(section 4.2), applied channel-wise. -/
def blend (base sugg : Color) : Color :=
  { r := blendChannel base.r sugg.r
    g := blendChannel base.g sugg.g
    b := blendChannel base.b sugg.b }

/-! ## Page sizes and the GenerateRequest interface -/
/-- The page-size presets admitted by the request interface
(src/lib/types.ts, field page_size of GenerateRequest). -/
inductive PageSize where
  | a4
  | letter
deriving Repr, DecidableEq

/-- The payload sent to POST /api/generate (src/lib/types.ts,
GenerateRequest). -/
structure GenerateRequest where
  company_name : String
  document_title : String
  copy_text : String
  page_size : PageSize
  footer_text : String
  file_urls : List String
  use_ai : Bool

/-- Dimensions of each preset in tenths of a millimetre: A4 is
210 x 297 mm, US Letter is 8.5 x 11 in = 215.9 x 279.4 mm
(spec section 6). -/
def pageDimsTenthMm (p : PageSize) : Nat × Nat :=
  match p with
  | .a4 => (2100, 2970)
  | .letter => (2159, 2794)

/-! ## Field-count header handling (template conversion page) -/
/-- Value of a run of leading decimal digits, or none when the run is
empty (the digits part of the JavaScript parseInt semantics). -/
def digitsVal : List Char → Option Nat
  | cs =>
    let ds := cs.takeWhile Char.isDigit
    if ds.isEmpty then none
    else some (ds.foldl (fun acc c => 10 * acc + (c.toNat - 48)) 0)

/-- JavaScript parseInt with radix 10: skip leading whitespace, read an
optional sign, then the longest run of decimal digits; none models NaN. -/
def parseIntJs (s : String) : Option Int :=
  let cs := s.toList.dropWhile Char.isWhitespace
  match cs with
  | [] => none
  | c :: rest =>
    if c = '-' then (digitsVal rest).map (fun n => -(n : Int))
    else if c = '+' then (digitsVal rest).map (fun n => (n : Int))
    else (digitsVal (c :: rest)).map (fun n => (n : Int))

/-- The fieldCount state set by handleGenerate in the template page:
parseInt of the X-Field-Count header (defaulting the absent header to
the string 0), stored only when the parsed value is truthy (neither
NaN nor zero). -/
def fieldCountFromHeader (header : Option String) : Option Int :=
  match parseIntJs (header.getD "0") with
  | none => none
  | some n => if n = 0 then none else some n

/-- The count shown in the success panel of the template page: rendered
exactly when fieldCount is non-null and strictly positive. -/
def displayedFieldCount (header : Option String) : Option Int :=
  match fieldCountFromHeader header with
  | none => none
  | some n => if 0 < n then some n else none

/-! ## DropZone brand-file list operations -/
/-- A brand material file as tracked by the web UI (src/lib/types.ts,
BrandFile); the file object and preview URL are abstracted to an
identifier. -/
structure BrandFile where
  fileId : Nat
  isLogo : Bool
deriving Repr, DecidableEq

/-- Maximum number of brand files (src/components/DropZone.tsx,
MAX_FILES). -/
def MAX_FILES : Nat := 5

/-- The onDrop handler of DropZone: append the accepted files, capped to
the remaining capacity; a newly added file is flagged as the logo only
when the list was empty and it is the first added file. -/
def dropFiles (files : List BrandFile) (accepted : List Nat) : List BrandFile :=
  let remaining := MAX_FILES - files.length
  let toAdd := (accepted.take remaining).enum.map
    (fun p => { fileId := p.2, isLogo := files.isEmpty && p.1 = 0 : BrandFile })
  files ++ toAdd

/-- The removeFile handler of DropZone: drop the entry at the given
index, then re-flag exactly the first remaining file as the logo. -/
def removeFile (files : List BrandFile) (idx : Nat) : List BrandFile :=
  let updated := files.eraseIdx idx
  updated.enum.map (fun p => { p.2 with isLogo := p.1 = 0 })

/-- A user interaction with the DropZone component. -/
inductive DropOp where
  | drop (accepted : List Nat)
  | remove (idx : Nat)

/-- One step of the DropZone state machine. -/
def dropStep (files : List BrandFile) : DropOp → List BrandFile
  | .drop accepted => dropFiles files accepted
  | .remove idx => removeFile files idx

/-- The invariant of the brand-file list: at most MAX_FILES entries, and
when non-empty exactly the entry at index 0 carries the logo flag. -/
def dropInv (files : List BrandFile) : Prop :=
  files.length ≤ MAX_FILES ∧
    (∀ f ∈ files.head?, f.isLogo = true) ∧
    (∀ f ∈ files.tail, f.isLogo = false)

/-! ## GET /api/get-upload-url path construction -/
/-- Sanitization of the ext query parameter
(src/app/api/get-upload-url/route.ts): the regex replace removes every
character that is not an ASCII letter or digit. -/
def sanitizeExt (s : String) : String :=
  String.mk (s.toList.filter Char.isAlphanum)

/-- The extension actually used by the route: the ext query parameter is
defaulted to bin when it is absent or empty (JavaScript logical-or on a
possibly null or empty string), then sanitized. -/
def usedExt (param : Option String) : String :=
  let raw := match param with
    | none => "bin"
    | some s => if s = "" then "bin" else s
  sanitizeExt raw

/-- The extension the claim predicts: the sanitized parameter, with the
bin fallback only when the parameter is absent. -/
def claimedExt (param : Option String) : String :=
  match param with
  | none => "bin"
  | some s => sanitizeExt s

/-- The storage object path built by the route: the timestamp is
Date.now() and rand stands for the random base-36 suffix, both
abstracted as inputs. -/
def uploadPath (ts : Nat) (rand : String) (param : Option String) : String :=
  "templates/" ++ toString ts ++ "-" ++ rand ++ "." ++ usedExt param

/-- The Supabase sign endpoint the route posts to, relative to the
project URL. -/
def signEndpoint (base : String) (ts : Nat) (rand : String)
    (param : Option String) : String :=
  base ++ "/storage/v1/object/sign/upload/pdf-creator/" ++ uploadPath ts rand param

/-- The uploadUrl returned to the browser. -/
def uploadUrl (base : String) (ts : Nat) (rand : String)
    (param : Option String) (token : String) : String :=
  base ++ "/storage/v1/object/upload/sign/pdf-creator/" ++
    uploadPath ts rand param ++ "?token=" ++ token

/-- The publicUrl returned to the browser. -/
def publicUrl (base : String) (ts : Nat) (rand : String)
    (param : Option String) : String :=
  base ++ "/storage/v1/object/public/pdf-creator/" ++ uploadPath ts rand param

/-! ## GET /api/debug-env response -/
/-- Test for one character list starting with another, character by
character. -/
def startsWithChars : List Char → List Char → Bool
  | [], _ => true
  | _ :: _, [] => false
  | a :: as, b :: bs => a == b && startsWithChars as bs

/-- Substring containment on character lists (the JavaScript
String.includes test). -/
def hasSubChars (needle : List Char) : List Char → Bool
  | [] => startsWithChars needle []
  | b :: bs => startsWithChars needle (b :: bs) || hasSubChars needle bs

/-- Lower-casing of a string, character by character (ASCII case
folding; environment-variable names are ASCII). -/
def lowerStr (s : String) : String :=
  String.mk (s.toList.map Char.toLower)

/-- Truncation of a string to its first n characters (the JavaScript
slice(0, n) call of the route). -/
def takeChars (v : String) (n : Nat) : String :=
  String.mk (v.toList.take n)

/-- The filter applied by the debug-env route: the variable name,
lower-cased, contains the word supabase. -/
def nameHasSupabase (k : String) : Bool :=
  hasSubChars "supabase".toList (lowerStr k).toList

/-- Boolean lexicographic comparison of strings by character code (the
default JavaScript Array.prototype.sort order on code units, which
agrees with code points on the basic plane). -/
def leChars : List Char → List Char → Bool
  | [], _ => true
  | _ :: _, [] => false
  | a :: as, b :: bs =>
    if a.toNat < b.toNat then true
    else if b.toNat < a.toNat then false
    else leChars as bs

/-- Insertion of a string into a sorted list under leChars. -/
def insertStr (s : String) : List String → List String
  | [] => [s]
  | t :: ts => if leChars s.toList t.toList then s :: t :: ts
    else t :: insertStr s ts

/-- Insertion sort of strings under leChars (the .sort() call of the
debug-env route). -/
def sortStrs : List String → List String
  | [] => []
  | s :: ss => insertStr s (sortStrs ss)

/-- The value bound to an environment-variable name; a missing name
reads as the empty string (the route coalesces undefined to the empty
string). -/
def envValue (env : List (String × String)) (k : String) : String :=
  ((env.find? (fun p => p.1 == k)).map Prod.snd).getD ""

/-- The sorted list of environment-variable names whose lower-cased name
contains supabase (the keys field of the debug-env response). -/
def debugKeys (env : List (String × String)) : List String :=
  sortStrs ((env.map Prod.fst).filter nameHasSupabase)

/-- Preview of one value: its first 12 characters, with a horizontal
ellipsis appended when the value is longer than 12 characters. -/
def previewOf (v : String) : String :=
  takeChars v 12 ++ (if 12 < v.toList.length then "…" else "")

/-- The full GET /api/debug-env response: the sorted matching names and,
for each, the preview of its value. -/
def debugEnvResp (env : List (String × String)) :
    List String × List (String × String) :=
  let keys := debugKeys env
  (keys, keys.map (fun k => (k, previewOf (envValue env k))))

/-- The information the debug-env response actually reveals about the
environment: the sorted matching names, and for each its value's first
12 characters together with whether the value is longer than 12
characters. -/
def debugEnvProj (env : List (String × String)) :
    List (String × String × Bool) :=
  (debugKeys env).map
    (fun k => (k, takeChars (envValue env k) 12,
      decide (12 < (envValue env k).toList.length)))

/-- Reconstruction of the debug-env response from the projection
alone. -/
def respOfProj (proj : List (String × String × Bool)) :
    List String × List (String × String) :=
  (proj.map (fun t => t.1),
    proj.map (fun t => (t.1, t.2.1 ++ (if t.2.2 then "…" else ""))))

/-! ## Core engine: data model (modelled from the spec, sections 3-4;
the Python modules utils.py, branding.py and pdf_builder.py that
implement FormSpec validation, the LayoutEngine, the FieldWidgetMapper
and the DocumentWriter are not in the provided sources) -/

/-- Modelled from the spec: the closed set of field types (section 3,
Field discriminated by type). -/
inductive FieldType where
  | text
  | email
  | phone
  | number
  | date
  | multiline
  | checkbox
  | choice
  | signature
deriving Repr, DecidableEq

/-- Modelled from the spec: a validated form field (section 3).  The
height is in millimetres, the internal length unit after the one-time
boundary conversion from centimetres (section 6); none means the type's
default applies. -/
structure Field where
  name : String
  label : String
  required : Bool
  ftype : FieldType
  options : List String
  heightMm : Option Nat
  full_width : Bool
deriving Repr, DecidableEq

/-- Modelled from the spec: a form section (section 3): title, column
count in {1,2}, optional intro text, ordered fields. -/
structure Section where
  title : String
  columns : Nat
  intro : Option String
  fields : List Field
deriving Repr, DecidableEq

/-- Modelled from the spec: a validated FormSpec (section 3). -/
structure FormSpec where
  company_name : String
  document_title : String
  document_subtitle : String
  footer_text : String
  page_size : PageSize
  sections : List Section
deriving Repr, DecidableEq

/-- Modelled from the spec: an immutable BrandTheme value (section 3). -/
structure BrandTheme where
  primary : Color
  secondary : Color
  accent : Color
  text_on_primary : Color
  light_tint : Color
  dark_shade : Color
deriving Repr, DecidableEq

/-- All fields of a FormSpec, in document order. -/
def allFields (spec : FormSpec) : List Field :=
  (spec.sections.map Section.fields).flatten

/-- Modelled from the spec: validity of a FormSpec (section 3
invariants and section 7 taxonomy): at least one section, globally
unique field names, non-empty options on choice fields, column count in
{1,2}. -/
def FormSpec.valid (spec : FormSpec) : Prop :=
  spec.sections ≠ [] ∧
    ((allFields spec).map Field.name).Nodup ∧
    (∀ f ∈ allFields spec, f.ftype = FieldType.choice → f.options ≠ []) ∧
    (∀ s ∈ spec.sections, s.columns = 1 ∨ s.columns = 2)

instance (spec : FormSpec) : Decidable spec.valid := by
  unfold FormSpec.valid
  infer_instance

/-! ## Core engine: FieldWidgetMapper (modelled from the spec,
section 4.4) -/

/-- Modelled from the spec: the concrete widget kinds of Table 4.4. -/
inductive WidgetKind where
  | singleLine
  | multiLine
  | booleanToggle
  | choiceList
  | signatureBox
deriving Repr, DecidableEq

/-- Modelled from the spec: the value type a registered control exports
(text, boolean or choice). -/
inductive ValueType where
  | text
  | boolean
  | choice
deriving Repr, DecidableEq

/-- Modelled from the spec: the total widget mapping of Table 4.4, one
widget kind per field type. -/
def widgetOf : FieldType → WidgetKind
  | .text => .singleLine
  | .email => .singleLine
  | .phone => .singleLine
  | .number => .singleLine
  | .date => .singleLine
  | .multiline => .multiLine
  | .checkbox => .booleanToggle
  | .choice => .choiceList
  | .signature => .signatureBox

/-- Modelled from the spec: the value type a widget kind exports; the
entry widgets and the signature box export text, the boolean toggle a
boolean, the selection list a choice. -/
def valueTypeOf : WidgetKind → ValueType
  | .singleLine => .text
  | .multiLine => .text
  | .booleanToggle => .boolean
  | .choiceList => .choice
  | .signatureBox => .text

/-- The value-type column of Table 4.4 read directly per field type, as
the claim words it: text-like, date, multiline and signature fields
export text, checkbox exports boolean, choice exports choice. -/
def tableValueType : FieldType → ValueType
  | .text => .text
  | .email => .text
  | .phone => .text
  | .number => .text
  | .date => .text
  | .multiline => .text
  | .checkbox => .boolean
  | .choice => .choice
  | .signature => .text

/-! ## Core engine: LayoutEngine (modelled from the spec, section 4.3) -/

/-- Fixed height of one single-line field row, in millimetres. -/
def lineHeightMm : Nat := 12

/-- Height of a section bar, in millimetres. -/
def barHeightMm : Nat := 10

/-- Height reserved for a section intro paragraph, in millimetres. -/
def introHeightMm : Nat := 8

/-- Modelled from the spec: usable body height of a page in
millimetres; page 1 carries the full header, continuation pages an
abbreviated one, so their body is taller (section 4.3). -/
def bodyHeightAt (ps : PageSize) (page : Nat) : Nat :=
  match ps with
  | .a4 => if page = 1 then 242 else 257
  | .letter => if page = 1 then 224 else 239

/-- Usable body width of a page in millimetres (page width minus the
side margins). -/
def bodyWidthMm : PageSize → Nat
  | .a4 => 180
  | .letter => 186

/-- Modelled from the spec: the height one field contributes to its row:
multiline and signature use their configured height (defaults 22 mm and
20 mm, the 2.2 cm and 2.0 cm of Table 4.4), every other type one fixed
line height. -/
def fieldHeightMm (f : Field) : Nat :=
  match f.ftype with
  | .multiline => f.heightMm.getD 22
  | .signature => f.heightMm.getD 20
  | _ => lineHeightMm

/-- Height of a row: the maximum of the heights of its fields. -/
def rowHeight (row : List Field) : Nat :=
  (row.map fieldHeightMm).foldl max 0

/-- Effective column count of a section: 2 when configured as 2,
otherwise 1. -/
def colsOf (s : Section) : Nat :=
  if s.columns = 2 then 2 else 1

/-- Modelled from the spec: greedy left-to-right row assignment
(section 4.3): a full_width field takes a row of its own; otherwise a
row takes the next field alone in a 1-column section, or the next two
fields in a 2-column section unless the second is full_width. -/
def rowsOf (cols : Nat) : List Field → List (List Field)
  | [] => []
  | [f] => [[f]]
  | f :: g :: rest =>
    if f.full_width then [f] :: rowsOf cols (g :: rest)
    else if cols = 2 ∧ ¬g.full_width then [f, g] :: rowsOf cols rest
    else [f] :: rowsOf cols (g :: rest)

/-- A field's resolved position: identifier, widget kind, page number
and bounding box (spec section 3, FieldPlacement). -/
structure FieldPlacement where
  fieldName : String
  widget : WidgetKind
  page : Nat
  x : Nat
  y : Nat
  w : Nat
  h : Nat
deriving Repr, DecidableEq

/-- The running state of the vertical-cursor algorithm: current page,
cursor offset from the top of the body area, and the placements
produced so far. -/
structure LayoutState where
  page : Nat
  yCur : Nat
  out : List FieldPlacement
deriving Repr, DecidableEq

/-- One placement within a row: the bounding box at the row's page and
vertical position, in the column slot given by the index; the height is
the field's own height clipped to the space below the row start. -/
def placeField (ps : PageSize) (cols : Nat) (pg y idx : Nat)
    (f : Field) : FieldPlacement :=
  { fieldName := f.name
    widget := widgetOf f.ftype
    page := pg
    x := idx * (bodyWidthMm ps / cols)
    y := y
    w := if f.full_width then bodyWidthMm ps else bodyWidthMm ps / cols
    h := min (fieldHeightMm f) (bodyHeightAt ps pg - y) }

/-- Modelled from the spec: placing one row (section 4.3): if the row
fits below the cursor it is placed there; otherwise the page is flushed
and the whole row restarts at the top of the next body; a row taller
than a full body page is clipped to that page's body height on its own
page, still a single placement per field. -/
def placeRow (ps : PageSize) (cols : Nat) (st : LayoutState)
    (row : List Field) : LayoutState :=
  if st.yCur + rowHeight row ≤ bodyHeightAt ps st.page then
    { page := st.page
      yCur := st.yCur + rowHeight row
      out := st.out ++
        row.enum.map (fun p => placeField ps cols st.page st.yCur p.1 p.2) }
  else if rowHeight row ≤ bodyHeightAt ps (st.page + 1) then
    { page := st.page + 1
      yCur := rowHeight row
      out := st.out ++
        row.enum.map (fun p => placeField ps cols (st.page + 1) 0 p.1 p.2) }
  else
    { page := st.page + 1
      yCur := bodyHeightAt ps (st.page + 1)
      out := st.out ++
        row.enum.map (fun p => placeField ps cols (st.page + 1) 0 p.1 p.2) }

/-- Modelled from the spec: reserving the section bar (section 4.3): if
less than the bar height plus one field row remains, the page is
flushed first, so a bar is never the last element of a page. -/
def placeBar (ps : PageSize) (st : LayoutState) : LayoutState :=
  if st.yCur + barHeightMm + lineHeightMm ≤ bodyHeightAt ps st.page then
    { st with yCur := st.yCur + barHeightMm }
  else
    { st with page := st.page + 1
              yCur := min barHeightMm (bodyHeightAt ps (st.page + 1)) }

/-- Modelled from the spec: the intro paragraph, laid out full-width
under the section bar with the same overflow rule (section 4.3). -/
def placeIntro (ps : PageSize) (st : LayoutState)
    (intro : Option String) : LayoutState :=
  match intro with
  | none => st
  | some _ =>
    if st.yCur + introHeightMm ≤ bodyHeightAt ps st.page then
      { st with yCur := st.yCur + introHeightMm }
    else
      { st with page := st.page + 1
                yCur := min introHeightMm (bodyHeightAt ps (st.page + 1)) }

/-- Modelled from the spec: laying out one section: bar, intro, then
the rows in order (section 4.3). -/
def layoutSection (ps : PageSize) (st : LayoutState)
    (s : Section) : LayoutState :=
  (rowsOf (colsOf s) s.fields).foldl (placeRow ps (colsOf s))
    (placeIntro ps (placeBar ps st) s.intro)

/-- The engine's output: page count and every field placement (spec
section 3, LayoutResult; the static draw primitives are not needed by
any claim and are omitted). -/
structure LayoutResult where
  numPages : Nat
  placements : List FieldPlacement
deriving Repr, DecidableEq

/-- Modelled from the spec: the LayoutEngine contract
layout(form_spec, theme, page_size) (section 4.3); pages are 1-indexed.
The theme drives only colors of draw primitives, not geometry. -/
def layout (spec : FormSpec) (theme : BrandTheme) (ps : PageSize) :
    LayoutResult :=
  { numPages := (spec.sections.foldl (layoutSection ps)
      { page := 1, yCur := 0, out := [] }).page
    placements := (spec.sections.foldl (layoutSection ps)
      { page := 1, yCur := 0, out := [] }).out }

/-! ## Core engine: DocumentWriter registry (modelled from the spec,
section 4.5) -/

/-- One named, typed control of the interactive-field registry. -/
structure RegistryEntry where
  name : String
  vtype : ValueType
deriving Repr, DecidableEq

/-- Modelled from the spec: the interactive-field registry emitted by
DocumentWriter.write: one named, typed, positioned control per
FieldPlacement (section 4.5). -/
def write (L : LayoutResult) : List RegistryEntry :=
  L.placements.map (fun p => { name := p.fieldName, vtype := valueTypeOf p.widget })

/-! ## Core engine: FormSpec validation (modelled from the spec,
sections 4.4 and 7) -/

/-- Modelled from the spec: the fatal ValidationError taxonomy
(section 7): unknown field type, duplicate field name, empty choice
options. -/
inductive ValidationError where
  | unknownFieldType (name ftypeStr : String)
  | duplicateFieldName (name : String)
  | emptyChoiceOptions (name : String)
deriving Repr, DecidableEq

/-- An unvalidated field as it arrives from the request: its type is a
raw string. -/
structure RawField where
  name : String
  label : String
  required : Bool
  ftype : String
  options : List String
  heightMm : Option Nat
  full_width : Bool
deriving Repr, DecidableEq

/-- An unvalidated section. -/
structure RawSection where
  title : String
  columns : Nat
  intro : Option String
  fields : List RawField
deriving Repr, DecidableEq

/-- An unvalidated FormSpec as it arrives from the request. -/
structure RawFormSpec where
  company_name : String
  document_title : String
  document_subtitle : String
  footer_text : String
  page_size : PageSize
  sections : List RawSection
deriving Repr, DecidableEq

/-- Modelled from the spec: parsing a raw type string into the fixed
field-type set; none when the string is outside the set. -/
def parseFieldType (s : String) : Option FieldType :=
  if s = "text" then some .text
  else if s = "email" then some .email
  else if s = "phone" then some .phone
  else if s = "number" then some .number
  else if s = "date" then some .date
  else if s = "multiline" then some .multiline
  else if s = "checkbox" then some .checkbox
  else if s = "choice" then some .choice
  else if s = "signature" then some .signature
  else none

/-- All raw fields of a raw FormSpec, in document order. -/
def rawFields (raw : RawFormSpec) : List RawField :=
  (raw.sections.map RawSection.fields).flatten

/-- First field name that occurs more than once, scanning left to
right. -/
def firstDup : List String → Option String
  | [] => none
  | n :: rest => if rest.contains n then some n else firstDup rest

/-- Modelled from the spec: validation of one field (sections 4.4 and
7): the type string must parse, and a choice field must have a
non-empty options sequence. -/
def convertField (rf : RawField) : Except ValidationError Field :=
  match parseFieldType rf.ftype with
  | none => .error (.unknownFieldType rf.name rf.ftype)
  | some t =>
    if t = FieldType.choice ∧ rf.options = [] then
      .error (.emptyChoiceOptions rf.name)
    else
      .ok { name := rf.name, label := rf.label, required := rf.required,
            ftype := t, options := rf.options, heightMm := rf.heightMm,
            full_width := rf.full_width }

/-- Validation of a field list, stopping at the first error. -/
def convertFields : List RawField → Except ValidationError (List Field)
  | [] => .ok []
  | rf :: rest => do
    let f ← convertField rf
    let fs ← convertFields rest
    .ok (f :: fs)

/-- Validation of one section. -/
def convertSection (rs : RawSection) : Except ValidationError Section := do
  let fs ← convertFields rs.fields
  .ok { title := rs.title, columns := rs.columns, intro := rs.intro,
        fields := fs }

/-- Validation of a section list, stopping at the first error. -/
def convertSections : List RawSection → Except ValidationError (List Section)
  | [] => .ok []
  | rs :: rest => do
    let s ← convertSection rs
    let ss ← convertSections rest
    .ok (s :: ss)

/-- Modelled from the spec: FormSpec validation (section 7): duplicate
names, unknown field types and empty choice options are all rejected
with a ValidationError before any layout work. -/
def validateFormSpec (raw : RawFormSpec) : Except ValidationError FormSpec :=
  match firstDup ((rawFields raw).map RawField.name) with
  | some n => .error (.duplicateFieldName n)
  | none => do
    let secs ← convertSections raw.sections
    .ok { company_name := raw.company_name,
          document_title := raw.document_title,
          document_subtitle := raw.document_subtitle,
          footer_text := raw.footer_text,
          page_size := raw.page_size,
          sections := secs }

/-- Modelled from the spec: the whole generation pipeline on a raw
request: validate, then lay out, then write; validation failure
short-circuits, so no partial document exists (section 7). -/
def generateDocument (raw : RawFormSpec) (theme : BrandTheme) :
    Except ValidationError (LayoutResult × List RegistryEntry) :=
  match validateFormSpec raw with
  | .error e => .error e
  | .ok spec =>
    let L := layout spec theme raw.page_size
    .ok (L, write L)

/-- A raw FormSpec contains a field with an unknown type string. -/
def hasUnknownType (raw : RawFormSpec) : Bool :=
  (rawFields raw).any (fun f => (parseFieldType f.ftype).isNone)

/-- A raw FormSpec contains a duplicated field name. -/
def hasDupName (raw : RawFormSpec) : Bool :=
  !((rawFields raw).map RawField.name).Nodup

/-- A raw FormSpec contains a choice field with no options. -/
def hasEmptyChoice (raw : RawFormSpec) : Bool :=
  (rawFields raw).any
    (fun f => parseFieldType f.ftype == some FieldType.choice && f.options.isEmpty)

/-- Well-formedness of one placement: it sits on a real (1-indexed)
page and its box lies inside that page's body area. -/
def placementOk (ps : PageSize) (p : FieldPlacement) : Prop :=
  1 ≤ p.page ∧ p.y + p.h ≤ bodyHeightAt ps p.page

/-- Well-formedness of a layout state: real page number, cursor inside
the current body, every placement so far well-formed. -/
def stateOk (ps : PageSize) (st : LayoutState) : Prop :=
  1 ≤ st.page ∧ st.yCur ≤ bodyHeightAt ps st.page ∧
    ∀ p ∈ st.out, placementOk ps p

/-! ## Concrete inputs used by witnesses -/

/-- A small concrete theme. -/
def themeEx : BrandTheme :=
  { primary := ⟨40, 60, 200⟩, secondary := ⟨200, 60, 40⟩,
    accent := ⟨60, 200, 40⟩, text_on_primary := ⟨255, 255, 255⟩,
    light_tint := ⟨140, 150, 230⟩, dark_shade := ⟨20, 30, 100⟩ }

/-- A small concrete valid FormSpec: one 2-column section with three
fields, one of them full-width. -/
def specEx : FormSpec :=
  { company_name := "Acme", document_title := "Intake",
    document_subtitle := "Please fill in", footer_text := "Confidential",
    page_size := PageSize.letter,
    sections :=
      [{ title := "Details", columns := 2, intro := some "About you",
         fields :=
           [{ name := "full_name", label := "Full name", required := true,
              ftype := FieldType.text, options := [], heightMm := none,
              full_width := false },
            { name := "notes", label := "Notes", required := false,
              ftype := FieldType.multiline, options := [], heightMm := some 30,
              full_width := true },
            { name := "plan", label := "Plan", required := true,
              ftype := FieldType.choice, options := ["a", "b"],
              heightMm := none, full_width := false }] }] }

/-- A concrete malformed raw FormSpec: its single field has the unknown
type string dropdown2. -/
def rawBadEx : RawFormSpec :=
  { company_name := "Acme", document_title := "Intake",
    document_subtitle := "", footer_text := "",
    page_size := PageSize.a4,
    sections :=
      [{ title := "S", columns := 1, intro := none,
         fields :=
           [{ name := "f1", label := "F1", required := false,
              ftype := "dropdown2", options := [], heightMm := none,
              full_width := false }] }] }

/-! ## Theorems -/

theorem blendChannel_self (x : Nat) (hx : x ≤ 255) : blendChannel x x = x := by
  unfold blendChannel
  have h : 65 * x + 35 * x = 100 * x := by ring
  rw [h, Nat.mul_div_cancel_left x (by norm_num : 0 < 100)]
  exact Nat.min_eq_right hx

theorem blendChannel_le (base sugg : Nat) : blendChannel base sugg ≤ 255 :=
  Nat.min_le_left _ _

theorem fst_ge_of_mem_enumFrom {α : Type} {p : Nat × α} {n : Nat} {l : List α}
    (h : p ∈ List.enumFrom n l) : n ≤ p.1 := by
  induction l generalizing n with
  | nil => simp [List.enumFrom] at h
  | cons a as ih =>
    simp only [List.enumFrom, List.mem_cons] at h
    rcases h with h | h
    · subst h; exact Nat.le_refl n
    · exact Nat.le_of_succ_le (ih h)

theorem dropInv_dropFiles {files : List BrandFile} (accepted : List Nat)
    (h : dropInv files) : dropInv (dropFiles files accepted) := by
  obtain ⟨hlen, hhead, htail⟩ := h
  unfold dropFiles
  refine ⟨?_, ?_, ?_⟩
  · simp only [List.length_append, List.length_map, List.enum_length,
      List.length_take]
    omega
  · cases files with
    | nil =>
      cases accepted with
      | nil => simp
      | cons a as =>
        simp [MAX_FILES, List.take, List.enum, List.enumFrom]
    | cons f fs =>
      simpa using hhead f (by simp)
  · intro g hg
    cases files with
    | nil =>
      cases accepted with
      | nil => simp at hg
      | cons a as =>
        simp only [MAX_FILES, List.nil_append, List.length_nil, Nat.sub_zero,
          List.take, List.enum, List.enumFrom, List.map_cons, List.tail_cons,
          List.mem_map] at hg
        obtain ⟨p, hp, hpe⟩ := hg
        have h1 : 1 ≤ p.1 := fst_ge_of_mem_enumFrom hp
        subst hpe
        simp [Nat.ne_of_gt h1]
    | cons f fs =>
      simp only [List.cons_append, List.tail_cons, List.mem_append,
        List.mem_map] at hg
      rcases hg with hg | ⟨p, hp, hpe⟩
      · exact htail g (by simpa using hg)
      · subst hpe; simp

theorem dropInv_removeFile {files : List BrandFile} (idx : Nat)
    (h : dropInv files) : dropInv (removeFile files idx) := by
  obtain ⟨hlen, _, _⟩ := h
  unfold removeFile
  refine ⟨?_, ?_, ?_⟩
  · simp only [List.length_map, List.enum_length]
    calc (files.eraseIdx idx).length ≤ files.length := List.length_eraseIdx_le _ _
      _ ≤ MAX_FILES := hlen
  · cases he : files.eraseIdx idx with
    | nil => simp
    | cons f fs => simp [List.enum, List.enumFrom]
  · intro g hg
    cases he : files.eraseIdx idx with
    | nil => simp [he] at hg
    | cons f fs =>
      simp only [he, List.enum, List.enumFrom, List.map_cons, List.tail_cons,
        List.mem_map] at hg
      obtain ⟨p, hp, hpe⟩ := hg
      have h1 : 1 ≤ p.1 := fst_ge_of_mem_enumFrom hp
      subst hpe
      simp [Nat.ne_of_gt h1]

theorem dropInv_step {files : List BrandFile} (op : DropOp)
    (h : dropInv files) : dropInv (dropStep files op) := by
  cases op with
  | drop accepted => exact dropInv_dropFiles accepted h
  | remove idx => exact dropInv_removeFile idx h

theorem dropInv_foldl (ops : List DropOp) {files : List BrandFile}
    (h : dropInv files) : dropInv (ops.foldl dropStep files) := by
  induction ops generalizing files with
  | nil => exact h
  | cons op rest ih => exact ih (dropInv_step op h)

/-- C8: starting from the empty list, every sequence of DropZone
operations (dropping accepted files, removing a file by index) keeps the
brand-file list at no more than 5 entries, and whenever the list is
non-empty exactly the entry at index 0 has isLogo set. -/
theorem dropZone_list_invariant (ops : List DropOp) :
    (ops.foldl dropStep []).length ≤ 5 ∧
      (∀ f ∈ (ops.foldl dropStep []).head?, f.isLogo = true) ∧
      (∀ f ∈ (ops.foldl dropStep []).tail, f.isLogo = false) :=
  dropInv_foldl ops ⟨by simp [MAX_FILES], by simp, by simp⟩

/-- C5: the ThemeBuilder blend step is idempotent on valid colors, and
every blended result has all channels inside [0,255]. -/
theorem blend_idempotent_and_clamped :
    (∀ c : Color, c.valid → blend c c = c) ∧
    (∀ c1 c2 : Color, (blend c1 c2).valid) := by
  constructor
  · intro c hc
    obtain ⟨hr, hg, hb⟩ := hc
    unfold blend
    rw [blendChannel_self c.r hr, blendChannel_self c.g hg,
      blendChannel_self c.b hb]
  · intro c1 c2
    exact ⟨blendChannel_le _ _, blendChannel_le _ _, blendChannel_le _ _⟩

theorem blend_idempotent_and_clamped_witness :
    blend ⟨10, 20, 30⟩ ⟨10, 20, 30⟩ = ⟨10, 20, 30⟩ ∧
      (blend ⟨1, 2, 3⟩ ⟨200, 300, 50⟩).valid :=
  ⟨blend_idempotent_and_clamped.1 ⟨10, 20, 30⟩ (by decide),
    blend_idempotent_and_clamped.2 ⟨1, 2, 3⟩ ⟨200, 300, 50⟩⟩

/-- C6: the request interface admits exactly the two page-size presets:
every GenerateRequest carries either a4 (210 x 297 mm) or letter
(8.5 x 11 in = 215.9 x 279.4 mm). -/
theorem generateRequest_pageSize_two_presets (r : GenerateRequest) :
    (r.page_size = PageSize.a4 ∧ pageDimsTenthMm r.page_size = (2100, 2970)) ∨
      (r.page_size = PageSize.letter ∧
        pageDimsTenthMm r.page_size = (2159, 2794)) := by
  cases h : r.page_size with
  | a4 => exact Or.inl ⟨rfl, rfl⟩
  | letter => exact Or.inr ⟨rfl, rfl⟩

/-- C7: the template page displays a detected-field count n exactly when
the X-Field-Count response header parses (JavaScript parseInt, radix 10)
to an integer n with n strictly positive; an absent, zero, negative or
non-numeric header displays no count. -/
theorem displayedFieldCount_iff (h : Option String) (n : Int) :
    displayedFieldCount h = some n ↔
      parseIntJs (h.getD "0") = some n ∧ 0 < n := by
  unfold displayedFieldCount fieldCountFromHeader
  cases hp : parseIntJs (h.getD "0") with
  | none => simp
  | some m =>
    by_cases hm : m = 0
    · subst hm
      simp only [if_pos rfl]
      constructor
      · intro hc; exact absurd hc (by simp)
      · rintro ⟨hmn, hn⟩
        simp only [Option.some.injEq] at hmn
        omega
    · simp only [if_neg hm]
      by_cases hpos : 0 < m
      · simp only [if_pos hpos, Option.some.injEq]
        constructor
        · rintro rfl; exact ⟨rfl, hpos⟩
        · rintro ⟨hmn, _⟩
          simpa using hmn
      · simp only [if_neg hpos]
        constructor
        · intro hc; exact absurd hc (by simp)
        · rintro ⟨hmn, hn⟩
          simp only [Option.some.injEq] at hmn
          omega

theorem displayedFieldCount_iff_witness :
    displayedFieldCount (some "7") = some 7 :=
  (displayedFieldCount_iff (some "7") 7).mpr ⟨by decide, by decide⟩

/-- C9 counterexample: a request whose ext query parameter is present
but empty. The claim predicts the sanitized parameter, which is the
empty extension, but the route falls back to bin, so the path differs
from the claimed form at this input. -/
theorem uploadPath_empty_param_cex :
    uploadPath 0 "abc" (some "") ≠
      "templates/" ++ toString 0 ++ "-" ++ "abc" ++ "." ++ claimedExt (some "") := by
  decide

/-- C9 (amended): for every request, the path embedded in the sign
endpoint, the uploadUrl and the publicUrl is
templates/(timestamp)-(random).(ext), where ext is the ext query
parameter with every character other than ASCII letters and digits
removed, falling back to bin when the parameter is absent or empty; the
extension is always purely alphanumeric, so the path stays under the
templates/ prefix. -/
theorem uploadPath_shape (base : String) (ts : Nat) (rand : String)
    (param : Option String) (token : String) :
    uploadPath ts rand param =
        "templates/" ++ toString ts ++ "-" ++ rand ++ "." ++ usedExt param ∧
      usedExt param = (match param with
        | none => sanitizeExt "bin"
        | some s => if s = "" then sanitizeExt "bin" else sanitizeExt s) ∧
      (usedExt param).toList.all Char.isAlphanum = true ∧
      signEndpoint base ts rand param =
        base ++ "/storage/v1/object/sign/upload/pdf-creator/" ++
          uploadPath ts rand param ∧
      uploadUrl base ts rand param token =
        base ++ "/storage/v1/object/upload/sign/pdf-creator/" ++
          uploadPath ts rand param ++ "?token=" ++ token ∧
      publicUrl base ts rand param =
        base ++ "/storage/v1/object/public/pdf-creator/" ++
          uploadPath ts rand param := by
  refine ⟨rfl, ?_, ?_, rfl, rfl, rfl⟩
  · unfold usedExt
    cases param with
    | none => rfl
    | some s =>
      by_cases hs : s = ""
      · simp [hs]
      · simp [hs]
  · unfold usedExt sanitizeExt
    cases param with
    | none =>
      simp only [List.all_eq_true]
      intro c hc
      simp only [String.toList] at hc
      exact (List.mem_filter.mp hc).2
    | some s =>
      simp only [List.all_eq_true]
      intro c hc
      simp only [String.toList] at hc
      split at hc <;> exact (List.mem_filter.mp hc).2

theorem respOfProj_over_keys (f : String → String) (keys : List String) :
    respOfProj (keys.map (fun k =>
        (k, takeChars (f k) 12, decide (12 < (f k).toList.length)))) =
      (keys, keys.map (fun k => (k, previewOf (f k)))) := by
  induction keys with
  | nil => rfl
  | cons k ks ih =>
    simp only [respOfProj, List.map_cons, List.map_map] at ih ⊢
    simp only [Prod.mk.injEq] at ih
    rw [ih.1, ih.2]
    simp [previewOf]

theorem debugEnvResp_eq_respOfProj (env : List (String × String)) :
    debugEnvResp env = respOfProj (debugEnvProj env) := by
  unfold debugEnvResp debugEnvProj
  exact (respOfProj_over_keys (envValue env) (debugKeys env)).symm

theorem mem_insertStr (s t : String) :
    ∀ l : List String, t ∈ insertStr s l → t = s ∨ t ∈ l := by
  intro l
  induction l with
  | nil =>
    intro hm
    simpa [insertStr] using hm
  | cons a as ih =>
    intro hm
    simp only [insertStr] at hm
    by_cases hle : leChars s.toList a.toList = true
    · rw [if_pos hle] at hm
      rcases List.mem_cons.mp hm with hm | hm
      · exact Or.inl hm
      · exact Or.inr hm
    · rw [if_neg hle] at hm
      rcases List.mem_cons.mp hm with hm | hm
      · exact Or.inr (List.mem_cons.mpr (Or.inl hm))
      · rcases ih hm with h2 | h2
        · exact Or.inl h2
        · exact Or.inr (List.mem_cons.mpr (Or.inr h2))

theorem mem_sortStrs (t : String) :
    ∀ l : List String, t ∈ sortStrs l → t ∈ l := by
  intro l
  induction l with
  | nil =>
    intro hm
    simp [sortStrs] at hm
  | cons a as ih =>
    intro hm
    simp only [sortStrs] at hm
    rcases mem_insertStr a t _ hm with hm | hm
    · simp [hm]
    · simp [ih hm]

/-- C10 counterexample: two environments agreeing on the supabase
variable names and on the first 12 characters of every value, where one
value has exactly 12 characters and the other 13; the previews differ
by the appended ellipsis, so the responses differ. -/
theorem debugEnv_prefix_agreement_cex :
    ((([("SUPABASE_KEY", "abcdefghijkl")] :
        List (String × String)).map Prod.fst) =
      (([("SUPABASE_KEY", "abcdefghijklm")] :
        List (String × String)).map Prod.fst)) ∧
      takeChars "abcdefghijkl" 12 = takeChars "abcdefghijklm" 12 ∧
      debugEnvResp [("SUPABASE_KEY", "abcdefghijkl")] ≠
        debugEnvResp [("SUPABASE_KEY", "abcdefghijklm")] := by
  refine ⟨rfl, by decide, ?_⟩
  decide

/-- C10 (amended): the debug-env response is a function of the names,
the 12-character value prefixes, and the does-the-value-exceed-12-
characters flags of the environment variables whose name contains
supabase case-insensitively: environments agreeing on that projection
get identical responses, and every name in the response contains
supabase case-insensitively. -/
theorem debugEnv_depends_only_on_proj (env1 env2 : List (String × String))
    (h : debugEnvProj env1 = debugEnvProj env2) :
    debugEnvResp env1 = debugEnvResp env2 ∧
      (∀ k ∈ (debugEnvResp env1).1, nameHasSupabase k = true) ∧
      (∀ p ∈ (debugEnvResp env1).2, nameHasSupabase p.1 = true) := by
  refine ⟨by rw [debugEnvResp_eq_respOfProj, debugEnvResp_eq_respOfProj, h], ?_, ?_⟩
  · intro k hk
    simp only [debugEnvResp, debugKeys] at hk
    have hm := mem_sortStrs k _ hk
    exact (List.mem_filter.mp hm).2
  · intro p hp
    simp only [debugEnvResp, List.mem_map] at hp
    obtain ⟨k, hk, hke⟩ := hp
    subst hke
    simp only [debugKeys] at hk
    have hm := mem_sortStrs k _ hk
    exact (List.mem_filter.mp hm).2

theorem debugEnv_depends_only_on_proj_witness :
    debugEnvResp [("NEXT_PUBLIC_SUPABASE_URL", "https://x.supabase.co")] =
      debugEnvResp [("NEXT_PUBLIC_SUPABASE_URL", "https://x.supabase.com")] :=
  (debugEnv_depends_only_on_proj
    [("NEXT_PUBLIC_SUPABASE_URL", "https://x.supabase.co")]
    [("NEXT_PUBLIC_SUPABASE_URL", "https://x.supabase.com")] (by decide)).1

/-! ## Core engine: row assignment and placement bookkeeping -/

theorem rowsOf_flatten (cols : Nat) (fs : List Field) :
    (rowsOf cols fs).flatten = fs := by
  induction fs using rowsOf.induct cols with
  | case1 => simp [rowsOf]
  | case2 f => simp [rowsOf]
  | case3 f g rest hfw ih => simp [rowsOf, hfw, ih]
  | case4 f g rest hfw hc ih =>
    obtain ⟨hcols, hg⟩ := hc
    subst hcols
    simp [rowsOf, hfw, hg, ih]
  | case5 f g rest hfw hc ih =>
    rw [rowsOf, if_neg hfw, if_neg (by simpa using hc)]
    simp [ih]

theorem rowPlacements_proj (ps : PageSize) (cols pg y : Nat)
    (row : List Field) :
    List.map ((fun p : FieldPlacement => (p.fieldName, p.widget)) ∘
        fun q : Nat × Field => placeField ps cols pg y q.1 q.2) row.enum =
      row.map (fun f => (f.name, widgetOf f.ftype)) := by
  have hc : ((fun p : FieldPlacement => (p.fieldName, p.widget)) ∘
      (fun q : Nat × Field => placeField ps cols pg y q.1 q.2)) =
      ((fun f : Field => (f.name, widgetOf f.ftype)) ∘ Prod.snd) := rfl
  rw [hc, ← List.map_map, List.enum_map_snd]

theorem placeRow_out_proj (ps : PageSize) (cols : Nat) (st : LayoutState)
    (row : List Field) :
    (placeRow ps cols st row).out.map (fun p => (p.fieldName, p.widget)) =
      st.out.map (fun p => (p.fieldName, p.widget)) ++
        row.map (fun f => (f.name, widgetOf f.ftype)) := by
  unfold placeRow
  split
  · simp only [List.map_append, List.map_map]
    rw [rowPlacements_proj]
  split
  · simp only [List.map_append, List.map_map]
    rw [rowPlacements_proj]
  · simp only [List.map_append, List.map_map]
    rw [rowPlacements_proj]

theorem foldl_placeRow_out_proj (ps : PageSize) (cols : Nat)
    (rows : List (List Field)) :
    ∀ st : LayoutState,
      ((rows.foldl (placeRow ps cols) st).out).map
          (fun p => (p.fieldName, p.widget)) =
        st.out.map (fun p => (p.fieldName, p.widget)) ++
          rows.flatten.map (fun f => (f.name, widgetOf f.ftype)) := by
  induction rows with
  | nil => intro st; simp
  | cons r rs ih =>
    intro st
    simp only [List.foldl_cons, List.flatten_cons, List.map_append]
    rw [ih, placeRow_out_proj, List.append_assoc]

theorem placeBar_out (ps : PageSize) (st : LayoutState) :
    (placeBar ps st).out = st.out := by
  unfold placeBar
  split <;> rfl

theorem placeIntro_out (ps : PageSize) (st : LayoutState)
    (intro : Option String) :
    (placeIntro ps st intro).out = st.out := by
  cases intro with
  | none => rfl
  | some s =>
    simp only [placeIntro]
    split <;> rfl

theorem layoutSection_out_proj (ps : PageSize) (st : LayoutState)
    (s : Section) :
    (layoutSection ps st s).out.map (fun p => (p.fieldName, p.widget)) =
      st.out.map (fun p => (p.fieldName, p.widget)) ++
        s.fields.map (fun f => (f.name, widgetOf f.ftype)) := by
  unfold layoutSection
  rw [foldl_placeRow_out_proj, placeIntro_out, placeBar_out, rowsOf_flatten]

theorem foldl_layoutSection_out_proj (ps : PageSize) (secs : List Section) :
    ∀ st : LayoutState,
      ((secs.foldl (layoutSection ps) st).out).map
          (fun p => (p.fieldName, p.widget)) =
        st.out.map (fun p => (p.fieldName, p.widget)) ++
          (secs.map Section.fields).flatten.map
            (fun f => (f.name, widgetOf f.ftype)) := by
  induction secs with
  | nil => intro st; simp
  | cons s ss ih =>
    intro st
    simp only [List.foldl_cons, List.map_cons, List.flatten_cons,
      List.map_append]
    rw [ih, layoutSection_out_proj, List.append_assoc]

theorem layout_placements_proj (spec : FormSpec) (theme : BrandTheme)
    (ps : PageSize) :
    (layout spec theme ps).placements.map (fun p => (p.fieldName, p.widget)) =
      (allFields spec).map (fun f => (f.name, widgetOf f.ftype)) := by
  unfold layout allFields
  rw [foldl_layoutSection_out_proj]
  simp

/-! ## Core engine: geometric well-formedness of placements -/

theorem placeField_ok (ps : PageSize) (cols pg y idx : Nat) (f : Field)
    (hpg : 1 ≤ pg) (hy : y ≤ bodyHeightAt ps pg) :
    placementOk ps (placeField ps cols pg y idx f) := by
  unfold placementOk placeField
  refine ⟨hpg, ?_⟩
  simp only
  have hmin : min (fieldHeightMm f) (bodyHeightAt ps pg - y) ≤
      bodyHeightAt ps pg - y := Nat.min_le_right _ _
  omega

theorem placeRow_ok (ps : PageSize) (cols : Nat) (st : LayoutState)
    (row : List Field) (h : stateOk ps st) :
    stateOk ps (placeRow ps cols st row) := by
  obtain ⟨hpg, hy, hout⟩ := h
  have hmem : ∀ pg0 y0, 1 ≤ pg0 → y0 ≤ bodyHeightAt ps pg0 →
      ∀ p ∈ st.out ++
        row.enum.map (fun q => placeField ps cols pg0 y0 q.1 q.2),
      placementOk ps p := by
    intro pg0 y0 hp0 hy0 p hp
    rcases List.mem_append.mp hp with hp | hp
    · exact hout p hp
    · obtain ⟨q, -, hqe⟩ := List.mem_map.mp hp
      exact hqe ▸ placeField_ok ps cols pg0 y0 q.1 q.2 hp0 hy0
  unfold placeRow
  by_cases h1 : st.yCur + rowHeight row ≤ bodyHeightAt ps st.page
  · rw [if_pos h1]
    exact ⟨hpg, h1, hmem st.page st.yCur hpg hy⟩
  · rw [if_neg h1]
    by_cases h2 : rowHeight row ≤ bodyHeightAt ps (st.page + 1)
    · rw [if_pos h2]
      refine ⟨?_, h2, hmem (st.page + 1) 0 (by omega) (Nat.zero_le _)⟩
      show 1 ≤ st.page + 1
      omega
    · rw [if_neg h2]
      refine ⟨?_, Nat.le_refl _,
        hmem (st.page + 1) 0 (by omega) (Nat.zero_le _)⟩
      show 1 ≤ st.page + 1
      omega

theorem placeBar_ok (ps : PageSize) (st : LayoutState)
    (h : stateOk ps st) : stateOk ps (placeBar ps st) := by
  obtain ⟨hpg, hy, hout⟩ := h
  unfold placeBar
  by_cases h1 : st.yCur + barHeightMm + lineHeightMm ≤ bodyHeightAt ps st.page
  · rw [if_pos h1]
    refine ⟨hpg, ?_, hout⟩
    show st.yCur + barHeightMm ≤ bodyHeightAt ps st.page
    omega
  · rw [if_neg h1]
    refine ⟨?_, Nat.min_le_right _ _, hout⟩
    show 1 ≤ st.page + 1
    omega

theorem placeIntro_ok (ps : PageSize) (st : LayoutState)
    (intro : Option String) (h : stateOk ps st) :
    stateOk ps (placeIntro ps st intro) := by
  obtain ⟨hpg, hy, hout⟩ := h
  cases intro with
  | none => exact ⟨hpg, hy, hout⟩
  | some s =>
    simp only [placeIntro]
    by_cases h1 : st.yCur + introHeightMm ≤ bodyHeightAt ps st.page
    · rw [if_pos h1]
      refine ⟨hpg, ?_, hout⟩
      show st.yCur + introHeightMm ≤ bodyHeightAt ps st.page
      omega
    · rw [if_neg h1]
      refine ⟨?_, Nat.min_le_right _ _, hout⟩
      show 1 ≤ st.page + 1
      omega

theorem foldl_placeRow_ok (ps : PageSize) (cols : Nat)
    (rows : List (List Field)) :
    ∀ st : LayoutState, stateOk ps st →
      stateOk ps (rows.foldl (placeRow ps cols) st) := by
  induction rows with
  | nil => intro st h; exact h
  | cons r rs ih =>
    intro st h
    exact ih _ (placeRow_ok ps cols st r h)

theorem layoutSection_ok (ps : PageSize) (st : LayoutState) (s : Section)
    (h : stateOk ps st) : stateOk ps (layoutSection ps st s) := by
  unfold layoutSection
  exact foldl_placeRow_ok ps (colsOf s) _ _
    (placeIntro_ok ps _ s.intro (placeBar_ok ps st h))

theorem foldl_layoutSection_ok (ps : PageSize) (secs : List Section) :
    ∀ st : LayoutState, stateOk ps st →
      stateOk ps (secs.foldl (layoutSection ps) st) := by
  induction secs with
  | nil => intro st h; exact h
  | cons s ss ih =>
    intro st h
    exact ih _ (layoutSection_ok ps st s h)

theorem layout_placements_ok (spec : FormSpec) (theme : BrandTheme)
    (ps : PageSize) :
    ∀ p ∈ (layout spec theme ps).placements, placementOk ps p := by
  unfold layout
  simp only
  have h0 : stateOk ps { page := 1, yCur := 0, out := [] } :=
    ⟨Nat.le_refl 1, Nat.zero_le _, by simp⟩
  exact (foldl_layoutSection_ok ps spec.sections _ h0).2.2

/-- C2: for every FormSpec, theme and page size, the LayoutResult has
exactly one FieldPlacement per field, in document order (so never zero
and never two for one field), and every placement sits on a single
1-indexed page with its whole box inside that page's body height —
overflowing rows move whole to the next page and over-tall rows are
clipped, so no placement ever spans two pages. -/
theorem layout_one_placement_per_field (spec : FormSpec)
    (theme : BrandTheme) (ps : PageSize) :
    (layout spec theme ps).placements.map (fun p => p.fieldName) =
        (allFields spec).map Field.name ∧
      ∀ p ∈ (layout spec theme ps).placements,
        1 ≤ p.page ∧ p.y + p.h ≤ bodyHeightAt ps p.page := by
  constructor
  · have hp := congrArg (List.map Prod.fst)
      (layout_placements_proj spec theme ps)
    rw [List.map_map, List.map_map] at hp
    exact hp
  · intro p hp
    exact layout_placements_ok spec theme ps p hp

/-- C3: layout is deterministic — two runs on identical
(FormSpec, theme, page_size) inputs yield the same page count, the same
field bounding boxes, and identical geometry. -/
theorem layout_deterministic (spec : FormSpec) (theme : BrandTheme)
    (ps : PageSize) (r1 r2 : LayoutResult)
    (h1 : r1 = layout spec theme ps) (h2 : r2 = layout spec theme ps) :
    r1.numPages = r2.numPages ∧ r1.placements = r2.placements ∧ r1 = r2 := by
  subst h1
  subst h2
  exact ⟨rfl, rfl, rfl⟩

theorem layout_deterministic_witness :
    (layout specEx themeEx PageSize.a4).numPages =
        (layout specEx themeEx PageSize.a4).numPages ∧
      (layout specEx themeEx PageSize.a4).placements =
        (layout specEx themeEx PageSize.a4).placements ∧
      layout specEx themeEx PageSize.a4 = layout specEx themeEx PageSize.a4 :=
  layout_deterministic specEx themeEx PageSize.a4 _ _ rfl rfl

/-! ## Core engine: the interactive-field registry -/

theorem valueType_matches_table (t : FieldType) :
    valueTypeOf (widgetOf t) = tableValueType t := by
  cases t <;> rfl

theorem write_eq_fields_map (spec : FormSpec) (theme : BrandTheme)
    (ps : PageSize) :
    write (layout spec theme ps) =
      (allFields spec).map
        (fun f => { name := f.name, vtype := valueTypeOf (widgetOf f.ftype) :
          RegistryEntry }) := by
  have hp := congrArg (List.map (fun q : String × WidgetKind =>
      { name := q.1, vtype := valueTypeOf q.2 : RegistryEntry }))
    (layout_placements_proj spec theme ps)
  rw [List.map_map, List.map_map] at hp
  exact hp

/-- C1: for every valid FormSpec, each field name appears exactly once
in the interactive-field registry of the DocumentWriter output — no
duplicates and none missing — and the registered control's value type
is the Table 4.4 value type of the field's type. -/
theorem registry_names_and_types (spec : FormSpec) (theme : BrandTheme)
    (ps : PageSize) (h : spec.valid) :
    (write (layout spec theme ps)).map (fun e => e.name) =
        (allFields spec).map Field.name ∧
      ∀ f ∈ allFields spec,
        ((write (layout spec theme ps)).map (fun e => e.name)).count f.name
            = 1 ∧
          ∀ e ∈ write (layout spec theme ps), e.name = f.name →
            e.vtype = tableValueType f.ftype := by
  obtain ⟨-, hnodup, -, -⟩ := h
  have hw := write_eq_fields_map spec theme ps
  have hnames : (write (layout spec theme ps)).map (fun e => e.name) =
      (allFields spec).map Field.name := by
    rw [hw, List.map_map]
    rfl
  refine ⟨hnames, ?_⟩
  intro f hf
  constructor
  · rw [hnames]
    exact List.count_eq_one_of_mem hnodup (List.mem_map_of_mem Field.name hf)
  · intro e he hename
    rw [hw] at he
    simp only [List.mem_map] at he
    obtain ⟨g, hg, hge⟩ := he
    have hgname : g.name = f.name := by
      rw [← hename, ← hge]
    have hgf : g = f := List.inj_on_of_nodup_map hnodup hg hf hgname
    rw [← hge, hgf]
    simp only
    exact valueType_matches_table f.ftype

theorem registry_names_and_types_witness :
    (write (layout specEx themeEx PageSize.letter)).map (fun e => e.name) =
      (allFields specEx).map Field.name :=
  (registry_names_and_types specEx themeEx PageSize.letter (by decide)).1

/-! ## Core engine: validation before layout -/

theorem firstDup_eq_none_iff (l : List String) :
    firstDup l = none ↔ l.Nodup := by
  induction l with
  | nil => simp [firstDup]
  | cons n rest ih =>
    simp only [firstDup, List.nodup_cons]
    by_cases hc : rest.contains n = true
    · have hmem : n ∈ rest := by
        simpa using hc
      simp [hc, hmem]
    · have hmem : n ∉ rest := by
        simpa using hc
      simp [hc, hmem, ih]

theorem except_error_bind {ε α β : Type} (e : ε) (f : α → Except ε β) :
    (Except.error e >>= f : Except ε β) = Except.error e :=
  rfl

theorem convertField_ok_no_bad {rf : RawField} {f : Field}
    (h : convertField rf = .ok f) :
    (parseFieldType rf.ftype).isSome = true ∧
      ¬(parseFieldType rf.ftype = some FieldType.choice ∧ rf.options = []) := by
  unfold convertField at h
  split at h
  · exact Except.noConfusion h
  · rename_i t heq
    split at h
    · exact Except.noConfusion h
    · rename_i hneg
      refine ⟨by rw [heq]; rfl, ?_⟩
      rintro ⟨hch, hopts⟩
      rw [heq] at hch
      have ht : t = FieldType.choice := by
        simpa using hch
      exact hneg ⟨ht, hopts⟩

theorem convertFields_ok_mem {l : List RawField} {fl : List Field}
    (h : convertFields l = .ok fl) :
    ∀ rf ∈ l, ∃ f, convertField rf = .ok f := by
  induction l generalizing fl with
  | nil => intro rf hrf; simp at hrf
  | cons rf0 rest ih =>
    intro rf hrf
    simp only [convertFields] at h
    cases hc : convertField rf0 with
    | error e =>
      rw [hc, except_error_bind] at h
      exact Except.noConfusion h
    | ok f0 =>
      rw [hc] at h
      cases hr : convertFields rest with
      | error e =>
        rw [hr] at h
        exact Except.noConfusion h
      | ok fs =>
        rcases List.mem_cons.mp hrf with hrf | hrf
        · exact ⟨f0, hrf ▸ hc⟩
        · exact ih hr rf hrf

theorem convertSections_ok_mem {ss : List RawSection} {out : List Section}
    (h : convertSections ss = .ok out) :
    ∀ s ∈ ss, ∀ rf ∈ s.fields, ∃ f, convertField rf = .ok f := by
  induction ss generalizing out with
  | nil => intro s hs; simp at hs
  | cons s0 rest ih =>
    intro s hs rf hrf
    simp only [convertSections] at h
    cases hc : convertSection s0 with
    | error e =>
      rw [hc, except_error_bind] at h
      exact Except.noConfusion h
    | ok sec0 =>
      rw [hc] at h
      cases hr : convertSections rest with
      | error e =>
        rw [hr] at h
        exact Except.noConfusion h
      | ok secs =>
        rcases List.mem_cons.mp hs with hs | hs
        · subst hs
          simp only [convertSection] at hc
          cases hf : convertFields s.fields with
          | error e =>
            rw [hf, except_error_bind] at hc
            exact Except.noConfusion hc
          | ok fl => exact convertFields_ok_mem hf rf hrf
        · exact ih hr s hs rf hrf

theorem validate_ok_no_malformed {raw : RawFormSpec} {spec : FormSpec}
    (h : validateFormSpec raw = .ok spec) :
    hasUnknownType raw = false ∧ hasDupName raw = false ∧
      hasEmptyChoice raw = false := by
  unfold validateFormSpec at h
  cases hfd : firstDup ((rawFields raw).map RawField.name) with
  | some n => rw [hfd] at h; simp at h
  | none =>
    rw [hfd] at h
    have hnodup : ((rawFields raw).map RawField.name).Nodup :=
      (firstDup_eq_none_iff _).mp hfd
    cases hcs : convertSections raw.sections with
    | error e =>
      rw [hcs, except_error_bind] at h
      exact Except.noConfusion h
    | ok secs =>
      have hall : ∀ rf ∈ rawFields raw, ∃ f, convertField rf = .ok f := by
        intro rf hrf
        unfold rawFields at hrf
        rw [List.mem_flatten] at hrf
        obtain ⟨fl, hfl, hrffl⟩ := hrf
        rw [List.mem_map] at hfl
        obtain ⟨s, hsmem, hse⟩ := hfl
        exact convertSections_ok_mem hcs s hsmem rf (hse ▸ hrffl)
      refine ⟨?_, ?_, ?_⟩
      · rw [hasUnknownType, List.any_eq_false]
        intro rf hrf
        obtain ⟨f, hok⟩ := hall rf hrf
        have hs := (convertField_ok_no_bad hok).1
        intro hcontra
        rw [Option.isNone_iff_eq_none] at hcontra
        rw [hcontra] at hs
        simp at hs
      · rw [hasDupName]
        simp [hnodup]
      · rw [hasEmptyChoice, List.any_eq_false]
        intro rf hrf
        obtain ⟨f, hok⟩ := hall rf hrf
        have hnb := (convertField_ok_no_bad hok).2
        intro hcontra
        rw [Bool.and_eq_true] at hcontra
        obtain ⟨hc1, hc2⟩ := hcontra
        exact hnb ⟨by simpa using hc1, by simpa using hc2⟩

/-- C4: a malformed raw FormSpec — an unknown field type, a duplicate
field name, or an empty choice options list — is rejected with a
ValidationError at validation time, before any layout work, and the
pipeline yields no document at all, only that error; in particular an
unknown field type never reaches the widget mapper. -/
theorem validation_rejects_malformed (raw : RawFormSpec)
    (theme : BrandTheme)
    (h : hasUnknownType raw = true ∨ hasDupName raw = true ∨
      hasEmptyChoice raw = true) :
    ∃ e, validateFormSpec raw = .error e ∧
      generateDocument raw theme = .error e := by
  cases hv : validateFormSpec raw with
  | error e =>
    refine ⟨e, rfl, ?_⟩
    unfold generateDocument
    rw [hv]
  | ok spec =>
    exfalso
    obtain ⟨h1, h2, h3⟩ := validate_ok_no_malformed hv
    rcases h with h | h | h
    · rw [h1] at h; exact Bool.false_ne_true h
    · rw [h2] at h; exact Bool.false_ne_true h
    · rw [h3] at h; exact Bool.false_ne_true h

theorem validation_rejects_malformed_witness :
    ∃ e, validateFormSpec rawBadEx = .error e ∧
      generateDocument rawBadEx themeEx = .error e :=
  validation_rejects_malformed rawBadEx themeEx (Or.inl (by decide))

end PdfCreator
